import Mathlib

/-!
Verification of the PySAR `pysarobj.py` stack objects: the epoch/pair index,
the network-inversion design matrices (`ifgramStack.get_design_matrix`),
the perpendicular-baseline time series
(`ifgramStack.get_perp_baseline_timeseries`), the drop-mask update
(`ifgramStack.update_drop_ifgram` / `get_date12_list`), the bounded-box read
path (`timeseries.read`) and the temporal average
(`ifgramStack.temporal_average`).

Dates are modelled as absolute day numbers (`Nat`): the source stores
fixed-width `YYYYMMDD` strings, parses them with `strptime` and only ever
uses their chronological order and day differences, and lexicographic order
on the fixed-width strings coincides with chronological order, so the day
number is a faithful image of the date key.
-/

namespace Pysar

/-- A date12 pair (master date, slave date), each an absolute day number. -/
abbrev DatePair := Nat × Nat

/-- A pair list is valid when each master date is chronologically strictly
before its slave date. -/
def ValidPairs (pairs : List DatePair) : Prop := ∀ p ∈ pairs, p.1 < p.2

/-- Insert a date into a strictly sorted list, keeping it strictly sorted:
the building block for `sorted(list(set(...)))`. -/
def insertDate (d : Nat) : List Nat → List Nat
  | [] => [d]
  | x :: xs =>
    if d < x then d :: x :: xs
    else if d = x then x :: xs
    else x :: insertDate d xs

/-- `dateList = sorted(list(set(mDates + sDates)))` from `get_design_matrix`:
the sorted deduplicated union of all master and slave dates. -/
def dateList (pairs : List DatePair) : List Nat :=
  (pairs.map Prod.fst ++ pairs.map Prod.snd).foldr insertDate []

/-- `numDate = len(dateList)`. -/
def numDate (pairs : List DatePair) : Nat := (dateList pairs).length

/-- `tbase = [(i - dates[0]).days for i in dates]`: day offsets from the
earliest epoch. -/
def tbase (pairs : List DatePair) : List Int :=
  (dateList pairs).map (fun (d : Nat) => (d : Int) - ((dateList pairs).headD 0 : Int))

/-- `m_idx = dateList.index(mDate)` for pair row `i`. -/
def m_idx (pairs : List DatePair) (i : Nat) : Nat :=
  (dateList pairs).indexOf (pairs.getD i (0, 0)).1

/-- `s_idx = dateList.index(sDate)` for pair row `i`. -/
def s_idx (pairs : List DatePair) (i : Nat) : Nat :=
  (dateList pairs).indexOf (pairs.getD i (0, 0)).2

/-- Entry `A[i, j]` of the incidence matrix before reference-column removal:
the loop body does `A[i, m_idx] = -1` then `A[i, s_idx] = 1`, so the later
assignment to `s_idx` wins when the two indices coincide. -/
def A_entry (pairs : List DatePair) (i j : Nat) : Int :=
  if j = s_idx pairs i then 1 else if j = m_idx pairs i then -1 else 0

/-- `tbase[k+1] - tbase[k]`: the consecutive epoch time separation. -/
def deltaT (pairs : List DatePair) (k : Nat) : Int :=
  (tbase pairs).getD (k + 1) 0 - (tbase pairs).getD k 0

/-- Entry `B[i, k]` before last-column removal:
`B[i, m_idx:s_idx] = tbase[m_idx+1:s_idx+1] - tbase[m_idx:s_idx]`, so the
entries in the half-open window `[m_idx, s_idx)` hold the consecutive time
separations and everything else stays at the zero fill. -/
def B_entry (pairs : List DatePair) (i k : Nat) : Int :=
  if m_idx pairs i ≤ k ∧ k < s_idx pairs i then deltaT pairs k else 0

/-- The full `numIfgram × numDate` incidence matrix `A` as built by the loop
in `get_design_matrix`, before the reference column is removed. -/
def A_matrix (pairs : List DatePair) : List (List Int) :=
  (List.range pairs.length).map
    (fun i => (List.range (numDate pairs)).map (fun j => A_entry pairs i j))

/-- The full `numIfgram × numDate` matrix `B` as built by the loop in
`get_design_matrix`, before the last column is removed. -/
def B_matrix (pairs : List DatePair) : List (List Int) :=
  (List.range pairs.length).map
    (fun i => (List.range (numDate pairs)).map (fun k => B_entry pairs i k))

/-- `np.hstack((row[0:r], row[r+1:]))`: drop the entry at position `r`. -/
def removeCol (row : List Int) (r : Nat) : List Int :=
  row.take r ++ row.drop (r + 1)

/-- `get_design_matrix(refDate)`: build `A` and `B`, then remove the
reference-date column from `A` (`refDate` defaults to `dateList[0]`) and the
last column from `B` (`B = B[:, :-1]`). -/
def get_design_matrix (pairs : List DatePair) (refDate : Option Nat) :
    List (List Int) × List (List Int) :=
  let dl := dateList pairs
  let refIndex := dl.indexOf (refDate.getD (dl.headD 0))
  ((A_matrix pairs).map (fun row => removeCol row refIndex),
   (B_matrix pairs).map (fun row => row.dropLast))

theorem mem_insertDate {a d : Nat} {l : List Nat} :
    a ∈ insertDate d l ↔ a = d ∨ a ∈ l := by
  induction l with
  | nil => simp [insertDate]
  | cons x xs ih =>
    by_cases h1 : d < x
    · simp [insertDate, h1, List.mem_cons]
    · by_cases h2 : d = x
      · subst h2
        simp [insertDate, h1, List.mem_cons]
      · simp [insertDate, h1, h2, List.mem_cons, ih]
        tauto

theorem sorted_insertDate {d : Nat} {l : List Nat} (h : l.Sorted (· < ·)) :
    (insertDate d l).Sorted (· < ·) := by
  induction l with
  | nil => simp [insertDate]
  | cons x xs ih =>
    rw [List.sorted_cons] at h
    by_cases h1 : d < x
    · simp only [insertDate, if_pos h1]
      rw [List.sorted_cons]
      refine ⟨?_, ?_⟩
      · intro b hb
        rcases List.mem_cons.1 hb with rfl | hb
        · exact h1
        · exact lt_trans h1 (h.1 b hb)
      · rw [List.sorted_cons]
        exact h
    · by_cases h2 : d = x
      · subst h2
        have hins : insertDate d (d :: xs) = d :: xs := by
          simp [insertDate, h1]
        rw [hins, List.sorted_cons]
        exact h
      · have hx : x < d := by omega
        simp only [insertDate, if_neg h1, if_neg h2]
        rw [List.sorted_cons]
        refine ⟨?_, ih h.2⟩
        intro b hb
        rcases mem_insertDate.1 hb with rfl | hb
        · exact hx
        · exact h.1 b hb

theorem dateList_sorted (pairs : List DatePair) : (dateList pairs).Sorted (· < ·) := by
  unfold dateList
  induction pairs.map Prod.fst ++ pairs.map Prod.snd with
  | nil => simp
  | cons x xs ih => exact sorted_insertDate ih

theorem mem_dateList {a : Nat} {pairs : List DatePair} :
    a ∈ dateList pairs ↔ a ∈ pairs.map Prod.fst ++ pairs.map Prod.snd := by
  unfold dateList
  induction pairs.map Prod.fst ++ pairs.map Prod.snd with
  | nil => simp
  | cons x xs ih => simp [List.foldr_cons, mem_insertDate, ih, List.mem_cons]

theorem dateList_nodup (pairs : List DatePair) : (dateList pairs).Nodup :=
  (dateList_sorted pairs).nodup

theorem fst_mem_dateList {p : DatePair} {pairs : List DatePair} (hp : p ∈ pairs) :
    p.1 ∈ dateList pairs :=
  mem_dateList.2 (List.mem_append.2 (Or.inl (List.mem_map_of_mem _ hp)))

theorem snd_mem_dateList {p : DatePair} {pairs : List DatePair} (hp : p ∈ pairs) :
    p.2 ∈ dateList pairs :=
  mem_dateList.2 (List.mem_append.2 (Or.inr (List.mem_map_of_mem _ hp)))

theorem getD_mem_pairs {pairs : List DatePair} {i : Nat} (hi : i < pairs.length) :
    pairs.getD i (0, 0) ∈ pairs := by
  rw [List.getD_eq_getElem _ _ hi]
  exact List.getElem_mem hi

theorem m_idx_lt (pairs : List DatePair) {i : Nat} (hi : i < pairs.length) :
    m_idx pairs i < numDate pairs :=
  List.indexOf_lt_length.2 (fst_mem_dateList (getD_mem_pairs hi))

theorem s_idx_lt (pairs : List DatePair) {i : Nat} (hi : i < pairs.length) :
    s_idx pairs i < numDate pairs :=
  List.indexOf_lt_length.2 (snd_mem_dateList (getD_mem_pairs hi))

theorem get_m_idx (pairs : List DatePair) {i : Nat} (hi : i < pairs.length) :
    (dateList pairs).get ⟨m_idx pairs i, m_idx_lt pairs hi⟩ = (pairs.getD i (0, 0)).1 :=
  List.indexOf_get (m_idx_lt pairs hi)

theorem get_s_idx (pairs : List DatePair) {i : Nat} (hi : i < pairs.length) :
    (dateList pairs).get ⟨s_idx pairs i, s_idx_lt pairs hi⟩ = (pairs.getD i (0, 0)).2 :=
  List.indexOf_get (s_idx_lt pairs hi)

theorem m_idx_lt_s_idx {pairs : List DatePair} (hv : ValidPairs pairs)
    {i : Nat} (hi : i < pairs.length) : m_idx pairs i < s_idx pairs i := by
  have hab : (pairs.getD i (0, 0)).1 < (pairs.getD i (0, 0)).2 :=
    hv _ (getD_mem_pairs hi)
  rcases lt_trichotomy (m_idx pairs i) (s_idx pairs i) with h | h | h
  · exact h
  · exfalso
    have h3 : (pairs.getD i (0, 0)).1 = (pairs.getD i (0, 0)).2 :=
      (get_m_idx pairs hi).symm.trans
        ((congrArg (dateList pairs).get (Fin.ext h)).trans (get_s_idx pairs hi))
    omega
  · exfalso
    have hlt := (dateList_sorted pairs).rel_get_of_lt
      (a := ⟨s_idx pairs i, s_idx_lt pairs hi⟩) (b := ⟨m_idx pairs i, m_idx_lt pairs hi⟩) h
    rw [get_m_idx pairs hi, get_s_idx pairs hi] at hlt
    omega

theorem dateList_headD_le {pairs : List DatePair} {d : Nat} (hd : d ∈ dateList pairs) :
    (dateList pairs).headD 0 ≤ d := by
  have hs := dateList_sorted pairs
  cases h : dateList pairs with
  | nil =>
    rw [h] at hd
    exact absurd hd (List.not_mem_nil d)
  | cons x xs =>
    rw [h] at hd hs
    rw [List.sorted_cons] at hs
    rcases List.mem_cons.1 hd with rfl | hd
    · simp
    · simpa using le_of_lt (hs.1 d hd)

theorem indexOf_headD {pairs : List DatePair} (h : dateList pairs ≠ []) :
    (dateList pairs).indexOf ((dateList pairs).headD 0) = 0 := by
  cases hd : dateList pairs with
  | nil => exact absurd hd h
  | cons x xs => simp

theorem tbase_getD {pairs : List DatePair} {k : Nat} (hk : k < numDate pairs) :
    (tbase pairs).getD k 0 =
      ((dateList pairs).getD k 0 : Int) - ((dateList pairs).headD 0 : Int) := by
  have hk1 : k < (dateList pairs).length := hk
  have hk2 : k < (tbase pairs).length := by
    have : (tbase pairs).length = (dateList pairs).length := List.length_map _ _
    omega
  rw [List.getD_eq_getElem _ _ hk2, List.getD_eq_getElem _ _ hk1]
  exact List.getElem_map _

theorem getD_m_idx (pairs : List DatePair) {i : Nat} (hi : i < pairs.length) :
    (dateList pairs).getD (m_idx pairs i) 0 = (pairs.getD i (0, 0)).1 := by
  rw [List.getD_eq_getElem _ _ (m_idx_lt pairs hi)]
  exact List.getElem_indexOf (m_idx_lt pairs hi)

theorem getD_s_idx (pairs : List DatePair) {i : Nat} (hi : i < pairs.length) :
    (dateList pairs).getD (s_idx pairs i) 0 = (pairs.getD i (0, 0)).2 := by
  rw [List.getD_eq_getElem _ _ (s_idx_lt pairs hi)]
  exact List.getElem_indexOf (s_idx_lt pairs hi)

theorem deltaT_pos {pairs : List DatePair} {k : Nat} (hk : k + 1 < numDate pairs) :
    0 < deltaT pairs k := by
  have hk0 : k < numDate pairs := by omega
  have hget := (dateList_sorted pairs).rel_get_of_lt
    (a := ⟨k, hk0⟩) (b := ⟨k + 1, hk⟩) (Nat.lt_succ_self k)
  rw [List.get_eq_getElem, List.get_eq_getElem] at hget
  have hlt : (dateList pairs).getD k 0 < (dateList pairs).getD (k + 1) 0 := by
    rw [List.getD_eq_getElem _ _ hk0, List.getD_eq_getElem _ _ hk]
    exact hget
  unfold deltaT
  rw [tbase_getD hk, tbase_getD hk0]
  omega

/-- The concrete scenario from the spec: epochs at days 10, 22, 34
(offsets 0, 12, 24), pairs (10,22), (22,34), (10,34). -/
def exPairs : List DatePair := [(10, 22), (22, 34), (10, 34)]

/-- C1: for a valid pair list, every pair row `i` of the incidence matrix `A`
built by `get_design_matrix` before reference-column removal has exactly `-1`
in the master-epoch column, `+1` in the slave-epoch column and `0` in every
other column, so the row sums to exactly `0`. -/
theorem A_row_incidence (pairs : List DatePair) (hv : ValidPairs pairs)
    (i : Nat) (hi : i < pairs.length) :
    A_entry pairs i (m_idx pairs i) = -1 ∧
    A_entry pairs i (s_idx pairs i) = 1 ∧
    (∀ j, j ≠ m_idx pairs i → j ≠ s_idx pairs i → A_entry pairs i j = 0) ∧
    ∑ j ∈ Finset.range (numDate pairs), A_entry pairs i j = 0 := by
  have hlt := m_idx_lt_s_idx hv hi
  have hne : m_idx pairs i ≠ s_idx pairs i := Nat.ne_of_lt hlt
  refine ⟨?_, ?_, ?_, ?_⟩
  · unfold A_entry
    rw [if_neg hne, if_pos rfl]
  · unfold A_entry
    rw [if_pos rfl]
  · intro j hj1 hj2
    unfold A_entry
    rw [if_neg hj2, if_neg hj1]
  · have hfun : ∀ j ∈ Finset.range (numDate pairs), A_entry pairs i j =
        (if j = s_idx pairs i then (1 : Int) else 0) +
        (if j = m_idx pairs i then (-1 : Int) else 0) := by
      intro j _
      unfold A_entry
      by_cases h1 : j = s_idx pairs i
      · have h2 : j ≠ m_idx pairs i := fun h2 => hne (h2.symm.trans h1)
        simp [h1, h2, Ne.symm hne]
      · by_cases h2 : j = m_idx pairs i
        · simp [h1, h2, hne]
        · simp [h1, h2]
    rw [Finset.sum_congr rfl hfun, Finset.sum_add_distrib,
      Finset.sum_ite_eq' (Finset.range (numDate pairs)) (s_idx pairs i)
        (fun _ => (1 : Int)),
      Finset.sum_ite_eq' (Finset.range (numDate pairs)) (m_idx pairs i)
        (fun _ => (-1 : Int)),
      if_pos (Finset.mem_range.2 (s_idx_lt pairs hi)),
      if_pos (Finset.mem_range.2 (m_idx_lt pairs hi))]
    norm_num

/-- Witness for C1 at the spec scenario, row 0. -/
theorem A_row_incidence_witness :
    ValidPairs exPairs ∧ 0 < exPairs.length ∧
    (A_entry exPairs 0 (m_idx exPairs 0) = -1 ∧
     A_entry exPairs 0 (s_idx exPairs 0) = 1 ∧
     (∀ j, j ≠ m_idx exPairs 0 → j ≠ s_idx exPairs 0 → A_entry exPairs 0 j = 0) ∧
     ∑ j ∈ Finset.range (numDate exPairs), A_entry exPairs 0 j = 0) :=
  ⟨by unfold ValidPairs exPairs; decide, by decide,
   A_row_incidence exPairs (by unfold ValidPairs exPairs; decide) 0 (by decide)⟩

/-- C2: with no reference supplied, `get_design_matrix` removes from `A`
exactly one column, the column of the reference epoch, which is the earliest
epoch (position 0 of the sorted epoch list, a lower bound of all epochs), and
removes from `B` exactly the last column; both returned matrices have
`m = pairs.length` rows, each of length `numDate - 1`. -/
theorem design_matrix_column_removal (pairs : List DatePair)
    (hv : ValidPairs pairs) (hne : pairs ≠ []) :
    (get_design_matrix pairs none).1.length = pairs.length ∧
    (get_design_matrix pairs none).2.length = pairs.length ∧
    (∀ row ∈ (get_design_matrix pairs none).1, row.length = numDate pairs - 1) ∧
    (∀ row ∈ (get_design_matrix pairs none).2, row.length = numDate pairs - 1) ∧
    (∀ d ∈ dateList pairs, (dateList pairs).headD 0 ≤ d) ∧
    (get_design_matrix pairs none).1 = (A_matrix pairs).map (fun row => row.drop 1) ∧
    (get_design_matrix pairs none).2 = (B_matrix pairs).map (fun row => row.dropLast) := by
  have hdl : dateList pairs ≠ [] := by
    rcases pairs with _ | ⟨p, rest⟩
    · exact absurd rfl hne
    · exact List.ne_nil_of_mem (fst_mem_dateList (List.mem_cons_self p rest))
  have href : (dateList pairs).indexOf ((dateList pairs).headD 0) = 0 :=
    indexOf_headD hdl
  have hA : (get_design_matrix pairs none).1 =
      (A_matrix pairs).map (fun row => row.drop 1) := by
    unfold get_design_matrix
    simp only [Option.getD_none, href]
    simp [removeCol]
  have hB : (get_design_matrix pairs none).2 =
      (B_matrix pairs).map (fun row => row.dropLast) := by
    unfold get_design_matrix
    rfl
  have hArow : ∀ row ∈ A_matrix pairs, row.length = numDate pairs := by
    intro row hrow
    rcases List.mem_map.1 hrow with ⟨j, _, rfl⟩
    simp
  have hBrow : ∀ row ∈ B_matrix pairs, row.length = numDate pairs := by
    intro row hrow
    rcases List.mem_map.1 hrow with ⟨j, _, rfl⟩
    simp
  refine ⟨?_, ?_, ?_, ?_, fun d hd => dateList_headD_le hd, hA, hB⟩
  · rw [hA]
    simp [A_matrix]
  · rw [hB]
    simp [B_matrix]
  · rw [hA]
    intro row hrow
    rcases List.mem_map.1 hrow with ⟨r, hr, rfl⟩
    rw [List.length_drop, hArow r hr]
  · rw [hB]
    intro row hrow
    rcases List.mem_map.1 hrow with ⟨r, hr, rfl⟩
    rw [List.length_dropLast, hBrow r hr]

/-- Witness for C2 at the spec scenario. -/
theorem design_matrix_column_removal_witness :
    ValidPairs exPairs ∧ exPairs ≠ [] ∧
    ((get_design_matrix exPairs none).1.length = exPairs.length ∧
     (get_design_matrix exPairs none).2.length = exPairs.length ∧
     (∀ row ∈ (get_design_matrix exPairs none).1, row.length = numDate exPairs - 1) ∧
     (∀ row ∈ (get_design_matrix exPairs none).2, row.length = numDate exPairs - 1) ∧
     (∀ d ∈ dateList exPairs, (dateList exPairs).headD 0 ≤ d) ∧
     (get_design_matrix exPairs none).1 = (A_matrix exPairs).map (fun row => row.drop 1) ∧
     (get_design_matrix exPairs none).2 = (B_matrix exPairs).map (fun row => row.dropLast)) :=
  ⟨by unfold ValidPairs exPairs; decide, by decide,
   design_matrix_column_removal exPairs (by unfold ValidPairs exPairs; decide) (by decide)⟩

/-- C3 counterexample: for the single valid pair (day 10, day 22) the epoch
column indices are a = 0 and b = 1, so no epoch index lies strictly between
them, yet row 0 of `B` (before column removal) holds the nonzero entry 12 at
column k = 0 = a: the nonzero window of a `B` row is not confined to indices
strictly between the pair's epoch indices. -/
theorem B_window_includes_lower_endpoint :
    ValidPairs [(10, 22)] ∧
    m_idx [(10, 22)] 0 = 0 ∧ s_idx [(10, 22)] 0 = 1 ∧
    B_entry [(10, 22)] 0 0 = 12 ∧
    ¬ (m_idx [(10, 22)] 0 < 0 ∧ 0 < s_idx [(10, 22)] 0) := by
  refine ⟨by unfold ValidPairs; decide, by decide, by decide, by decide, by decide⟩

/-- C3 amended: in row `i` of `B` (before column removal) the nonzero
entries are exactly the epoch indices `k` in the half-open window
`m_idx ≤ k < s_idx` — the window starts at the master epoch's own index,
not strictly after it — and each such entry equals the consecutive epoch
time separation `Δt(k) = tbase[k+1] − tbase[k]`, which is positive. -/
theorem B_row_window (pairs : List DatePair) (_hv : ValidPairs pairs)
    (i : Nat) (hi : i < pairs.length) :
    ∀ k, (B_entry pairs i k ≠ 0 ↔ m_idx pairs i ≤ k ∧ k < s_idx pairs i) ∧
      (m_idx pairs i ≤ k → k < s_idx pairs i →
        B_entry pairs i k = deltaT pairs k ∧ 0 < deltaT pairs k) := by
  intro k
  have hsn := s_idx_lt pairs hi
  have hpos : m_idx pairs i ≤ k → k < s_idx pairs i → 0 < deltaT pairs k := by
    intro _ h2
    exact deltaT_pos (by omega)
  constructor
  · constructor
    · intro hnz
      by_contra hcon
      have : B_entry pairs i k = 0 := by
        unfold B_entry
        rw [if_neg hcon]
      exact hnz this
    · intro hwin
      unfold B_entry
      rw [if_pos hwin]
      exact Int.ne_of_gt (hpos hwin.1 hwin.2)
  · intro h1 h2
    refine ⟨?_, hpos h1 h2⟩
    unfold B_entry
    rw [if_pos ⟨h1, h2⟩]

/-- Witness for the amended C3 at the spec scenario, row 2 (pair spanning
both increments). -/
theorem B_row_window_witness :
    ValidPairs exPairs ∧ 2 < exPairs.length ∧
    (∀ k, (B_entry exPairs 2 k ≠ 0 ↔ m_idx exPairs 2 ≤ k ∧ k < s_idx exPairs 2) ∧
      (m_idx exPairs 2 ≤ k → k < s_idx exPairs 2 →
        B_entry exPairs 2 k = deltaT exPairs k ∧ 0 < deltaT exPairs k)) := by
  exact ⟨by unfold ValidPairs exPairs; decide, by decide,
    B_row_window exPairs (by unfold ValidPairs exPairs; decide) 2 (by decide)⟩

/-- C4: the sum of row `i` of `B` taken before the last column is removed
equals the pair's raw time delta in days, `tbase[b] − tbase[a] = sDate − mDate`. -/
theorem B_row_sum_time_delta (pairs : List DatePair) (hv : ValidPairs pairs)
    (i : Nat) (hi : i < pairs.length) :
    ∑ k ∈ Finset.range (numDate pairs), B_entry pairs i k =
      ((pairs.getD i (0, 0)).2 : Int) - ((pairs.getD i (0, 0)).1 : Int) := by
  have hms := m_idx_lt_s_idx hv hi
  have hsn := s_idx_lt pairs hi
  have hmn := m_idx_lt pairs hi
  have h1 : ∑ k ∈ Finset.range (numDate pairs), B_entry pairs i k =
      ∑ k ∈ Finset.Ico (m_idx pairs i) (s_idx pairs i), deltaT pairs k := by
    unfold B_entry
    rw [Finset.sum_ite, Finset.sum_const_zero, add_zero]
    apply Finset.sum_congr
    · ext k
      simp only [Finset.mem_filter, Finset.mem_range, Finset.mem_Ico]
      omega
    · intro k _
      rfl
  have h2 : ∀ k ∈ Finset.Ico (m_idx pairs i) (s_idx pairs i),
      deltaT pairs k =
        (fun j => (tbase pairs).getD j 0) (k + 1) -
        (fun j => (tbase pairs).getD j 0) k := fun k _ => rfl
  have e1 : (tbase pairs).getD (s_idx pairs i) 0 =
      ((pairs.getD i (0, 0)).2 : Int) - ((dateList pairs).headD 0 : Int) := by
    rw [tbase_getD hsn, getD_s_idx pairs hi]
  have e2 : (tbase pairs).getD (m_idx pairs i) 0 =
      ((pairs.getD i (0, 0)).1 : Int) - ((dateList pairs).headD 0 : Int) := by
    rw [tbase_getD hmn, getD_m_idx pairs hi]
  rw [h1, Finset.sum_congr rfl h2, Finset.sum_Ico_eq_sub _ (le_of_lt hms),
    Finset.sum_range_sub (fun j => (tbase pairs).getD j 0),
    Finset.sum_range_sub (fun j => (tbase pairs).getD j 0), e1, e2]
  ring

/-- Witness for C4 at the spec scenario, row 2: the row sum is 24 days. -/
theorem B_row_sum_time_delta_witness :
    ValidPairs exPairs ∧ 2 < exPairs.length ∧
    ∑ k ∈ Finset.range (numDate exPairs), B_entry exPairs 2 k =
      ((exPairs.getD 2 (0, 0)).2 : Int) - ((exPairs.getD 2 (0, 0)).1 : Int) :=
  ⟨by unfold ValidPairs exPairs; decide, by decide,
   B_row_sum_time_delta exPairs (by unfold ValidPairs exPairs; decide) 2 (by decide)⟩

/-- Dot product of a matrix row with a vector, over exact rationals standing
for the stored floating-point values. -/
def dotProduct (xs ys : List ℚ) : ℚ :=
  ((xs.zip ys).map (fun q => q.1 * q.2)).sum

/-- `np.dot(B_inv, pbaseIfgram)`: one dot product per matrix row. -/
def matVec (M : List (List ℚ)) (v : List ℚ) : List ℚ :=
  M.map (fun row => dotProduct row v)

/-- Running-total accumulator implementing `np.cumsum`. -/
def cumsumFrom (acc : ℚ) : List ℚ → List ℚ
  | [] => []
  | x :: xs => (acc + x) :: cumsumFrom (acc + x) xs

/-- `np.cumsum` on a 1-D array. -/
def cumsum (l : List ℚ) : List ℚ := cumsumFrom 0 l

/-- `tbaseDiff = np.diff([(i - dates[0]).days for i in dates])`:
`out[k] = tbase[k+1] - tbase[k]`, length `numDate - 1`. -/
def tbaseDiff (pairs : List DatePair) : List Int :=
  List.zipWith (fun a b => b - a) (tbase pairs) (tbase pairs).tail

/-- `get_perp_baseline_timeseries`: `pbaseRate = np.dot(B_inv, pbaseIfgram)`
and the returned series is `[0] ++ np.cumsum(pbaseRate * tbaseDiff)`.
`B_inv` stands for `np.linalg.pinv(B)`: the pseudo-inverse is an external
LAPACK routine computed in floating point, so it enters the model as an
explicit matrix argument and the structural contract is proved for every
value of it. -/
def get_perp_baseline_timeseries (pairs : List DatePair)
    (B_inv : List (List ℚ)) (pbase : List ℚ) : List ℚ :=
  let pbaseRate := matVec B_inv pbase
  let prods := List.zipWith (fun r d => r * d) pbaseRate
    ((tbaseDiff pairs).map (fun (z : Int) => (z : ℚ)))
  0 :: cumsum prods

theorem cumsumFrom_length (acc : ℚ) (l : List ℚ) :
    (cumsumFrom acc l).length = l.length := by
  induction l generalizing acc with
  | nil => rfl
  | cons x xs ih => simp [cumsumFrom, ih]

theorem cumsumFrom_getD {l : List ℚ} {k : Nat} (hk : k < l.length) (acc : ℚ) :
    (cumsumFrom acc l).getD k 0 = acc + ∑ j ∈ Finset.range (k + 1), l.getD j 0 := by
  induction l generalizing acc k with
  | nil => simp at hk
  | cons x xs ih =>
    cases k with
    | zero => simp [cumsumFrom]
    | succ k =>
      have hk2 : k < xs.length := by simpa using hk
      have hstep : (cumsumFrom acc (x :: xs)).getD (k + 1) 0 =
          (cumsumFrom (acc + x) xs).getD k 0 := rfl
      have hsum : ∑ j ∈ Finset.range (k + 1 + 1), (x :: xs).getD j 0 =
          x + ∑ j ∈ Finset.range (k + 1), xs.getD j 0 := by
        rw [Finset.sum_range_succ']
        simp only [List.getD_cons_succ, List.getD_cons_zero]
        ring
      rw [hstep, ih hk2, hsum]
      ring

theorem tbaseDiff_length (pairs : List DatePair) :
    (tbaseDiff pairs).length = numDate pairs - 1 := by
  unfold tbaseDiff
  rw [List.length_zipWith, List.length_tail]
  have : (tbase pairs).length = numDate pairs := List.length_map _ _
  omega

theorem tail_getD (l : List Int) (k : Nat) (d : Int) :
    l.tail.getD k d = l.getD (k + 1) d := by
  cases l with
  | nil => rfl
  | cons x xs => rfl

theorem tbaseDiff_getD {pairs : List DatePair} {k : Nat}
    (hk : k + 1 < numDate pairs) :
    (tbaseDiff pairs).getD k 0 = deltaT pairs k := by
  have hlen : (tbase pairs).length = numDate pairs := List.length_map _ _
  have hk1 : k < (tbaseDiff pairs).length := by
    rw [tbaseDiff_length]
    omega
  have hk2 : k < (tbase pairs).length := by omega
  have hk3 : k < (tbase pairs).tail.length := by
    rw [List.length_tail]
    omega
  rw [List.getD_eq_getElem _ _ hk1]
  unfold tbaseDiff
  rw [List.getElem_zipWith, ← List.getD_eq_getElem _ (0 : Int) hk3,
    ← List.getD_eq_getElem _ (0 : Int) hk2, tail_getD]
  rfl

/-- C5: the baseline series is `0` at the reference epoch and its entry
`k+1` is the cumulative sum over `j ≤ k` of `rate[j] * Δt(j)`, where
`rate = B_inv · pbase` is the (pseudo-inverse) least-squares solution; the
series has one entry per epoch. -/
theorem perp_baseline_timeseries_cumsum (pairs : List DatePair)
    (B_inv : List (List ℚ)) (pbase : List ℚ)
    (hB : B_inv.length = numDate pairs - 1) (hn : 1 ≤ numDate pairs) :
    (get_perp_baseline_timeseries pairs B_inv pbase).length = numDate pairs ∧
    (get_perp_baseline_timeseries pairs B_inv pbase).getD 0 0 = 0 ∧
    (∀ j, j + 1 < numDate pairs → (tbaseDiff pairs).getD j 0 = deltaT pairs j) ∧
    ∀ k, k + 1 < numDate pairs →
      (get_perp_baseline_timeseries pairs B_inv pbase).getD (k + 1) 0 =
        ∑ j ∈ Finset.range (k + 1),
          (matVec B_inv pbase).getD j 0 * (((tbaseDiff pairs).getD j 0 : Int) : ℚ) := by
  have hrate : (matVec B_inv pbase).length = numDate pairs - 1 := by
    unfold matVec
    rw [List.length_map]
    exact hB
  have hprods : (List.zipWith (fun r d => r * d) (matVec B_inv pbase)
      ((tbaseDiff pairs).map (fun (z : Int) => (z : ℚ)))).length =
      numDate pairs - 1 := by
    rw [List.length_zipWith, List.length_map, tbaseDiff_length, hrate]
    omega
  refine ⟨?_, rfl, fun j hj => tbaseDiff_getD hj, ?_⟩
  · unfold get_perp_baseline_timeseries
    simp only [List.length_cons]
    unfold cumsum
    rw [cumsumFrom_length, hprods]
    omega
  · intro k hk
    have hk1 : k < numDate pairs - 1 := by omega
    have hkp : k < (List.zipWith (fun r d => r * d) (matVec B_inv pbase)
        ((tbaseDiff pairs).map (fun (z : Int) => (z : ℚ)))).length := by
      rw [hprods]
      exact hk1
    have hstep : (get_perp_baseline_timeseries pairs B_inv pbase).getD (k + 1) 0 =
        (cumsum (List.zipWith (fun r d => r * d) (matVec B_inv pbase)
          ((tbaseDiff pairs).map (fun (z : Int) => (z : ℚ))))).getD k 0 := rfl
    rw [hstep]
    unfold cumsum
    rw [cumsumFrom_getD hkp 0, zero_add]
    apply Finset.sum_congr rfl
    intro j hj
    have hjk : j < (List.zipWith (fun r d => r * d) (matVec B_inv pbase)
        ((tbaseDiff pairs).map (fun (z : Int) => (z : ℚ)))).length := by
      rw [hprods]
      have := Finset.mem_range.1 hj
      omega
    have hjr : j < (matVec B_inv pbase).length := by
      rw [hprods] at hjk
      omega
    have hjd2 : j < (tbaseDiff pairs).length := by
      rw [tbaseDiff_length]
      rw [hprods] at hjk
      omega
    rw [List.getD_eq_getElem _ _ hjk, List.getElem_zipWith,
      List.getElem_map, List.getD_eq_getElem _ _ hjr, List.getD_eq_getElem _ _ hjd2]

/-- Witness for C5: a concrete 2×3 `B_inv` and observed baselines on the
spec scenario. -/
theorem perp_baseline_timeseries_cumsum_witness :
    ([[1, 0, 0], [0, 1, 0]] : List (List ℚ)).length = numDate exPairs - 1 ∧
    1 ≤ numDate exPairs ∧
    ((get_perp_baseline_timeseries exPairs [[1, 0, 0], [0, 1, 0]] [1, 1, 2]).length =
        numDate exPairs ∧
      (get_perp_baseline_timeseries exPairs [[1, 0, 0], [0, 1, 0]] [1, 1, 2]).getD 0 0 = 0 ∧
      (∀ j, j + 1 < numDate exPairs →
        (tbaseDiff exPairs).getD j 0 = deltaT exPairs j) ∧
      ∀ k, k + 1 < numDate exPairs →
        (get_perp_baseline_timeseries exPairs [[1, 0, 0], [0, 1, 0]] [1, 1, 2]).getD
            (k + 1) 0 =
          ∑ j ∈ Finset.range (k + 1),
            (matVec [[1, 0, 0], [0, 1, 0]] [1, 1, 2]).getD j 0 *
              (((tbaseDiff exPairs).getD j 0 : Int) : ℚ)) :=
  ⟨by unfold exPairs; decide, by unfold exPairs; decide,
   perp_baseline_timeseries_cumsum exPairs [[1, 0, 0], [0, 1, 0]] [1, 1, 2]
     (by unfold exPairs; decide) (by unfold exPairs; decide)⟩

/-- `update_drop_ifgram(date12List_to_drop)`: with `None` the function
returns without touching the file; otherwise the persisted keep-mask is
recomputed as `keep[i] = date12List[i] not in date12List_to_drop`. The
source performs no validation of the input keys. -/
def update_drop_ifgram (date12ListAll : List DatePair)
    (toDrop : Option (List DatePair)) : Option (List Bool) :=
  toDrop.map (fun S => date12ListAll.map (fun p => decide (p ∉ S)))

/-- `get_date12_list(dropIfgram)`: the stored pair list, filtered through
the boolean keep-mask (`dates[f['dropIfgram'][:],:]`) when the flag is set;
boolean indexing keeps storage order. -/
def get_date12_list (pairs : List DatePair) (mask : List Bool)
    (dropIfgram : Bool) : List DatePair :=
  if dropIfgram then ((pairs.zip mask).filter (fun q => q.2)).map (fun q => q.1)
  else pairs

/-- An open `ifgramStack` handle: the stored `date` pair list and the
persisted `dropIfgram` keep-mask. -/
structure StackState where
  pairs : List DatePair
  dropMask : List Bool

/-- The keep-mask write path: `update_drop_ifgram` reads the full pair list
(`get_date12_list(dropIfgram=False)`) and overwrites `/dropIfgram`. -/
def set_keep (st : StackState) (S : List DatePair) : StackState :=
  ⟨st.pairs,
   (update_drop_ifgram (get_date12_list st.pairs st.dropMask false) (some S)).getD
     st.dropMask⟩

theorem zip_map_filter {α : Type} (l : List α) (f : α → Bool) :
    ((l.zip (l.map f)).filter (fun q => q.2)).map (fun q => q.1) = l.filter f := by
  induction l with
  | nil => rfl
  | cons x xs ih =>
    simp only [List.map_cons, List.zip_cons_cons, List.filter_cons]
    by_cases h : f x
    · simp [h, ih]
    · simp [h, ih]

/-- C6 counterexample: the stored index has the single pair key (1,2); the
drop set holds only the unknown key (5,6); the keep-mask update succeeds and
returns the mask `[true]` (the unknown key silently ignored) instead of
failing with any error. -/
theorem update_drop_ifgram_no_error :
    ((5, 6) : DatePair) ∉ [((1, 2) : DatePair)] ∧
    update_drop_ifgram [(1, 2)] (some [(5, 6)]) = some [true] := by decide

/-- C6 amended: `update_drop_ifgram` never fails: for every drop set it
returns the recomputed keep-mask `keep[i] = key(i) ∉ S`, and keys of `S`
that are not pair keys of the current index are silently ignored — the
result equals the update with `S` restricted to the keys actually present. -/
theorem update_drop_ifgram_ignores_unknown (pairs : List DatePair)
    (S : List DatePair) :
    update_drop_ifgram pairs (some S) =
      some (pairs.map (fun p => decide (p ∉ S))) ∧
    update_drop_ifgram pairs (some S) =
      update_drop_ifgram pairs (some (S.filter (fun s => decide (s ∈ pairs)))) := by
  refine ⟨rfl, ?_⟩
  unfold update_drop_ifgram
  show some (pairs.map (fun p => decide (p ∉ S))) =
    some (pairs.map (fun p => decide (p ∉ S.filter (fun s => decide (s ∈ pairs)))))
  congr 1
  apply List.map_congr_left
  intro p hp
  by_cases hS : p ∈ S
  · have hmem : p ∈ S.filter (fun s => decide (s ∈ pairs)) :=
      List.mem_filter.2 ⟨hS, by simpa using hp⟩
    simp [hS, hmem]
  · have hmem : p ∉ S.filter (fun s => decide (s ∈ pairs)) :=
      fun hmem => hS (List.mem_filter.1 hmem).1
    simp [hS, hmem]

/-- C7: after `set_keep S` (with `S` a set of valid pair keys), listing the
pairs with the drop filter applied returns exactly the pairs whose keys are
not in `S`, in their original storage order, and a second `set_keep` with
the same `S` leaves the persisted state unchanged. -/
theorem set_keep_filter_idempotent (st : StackState) (S : List DatePair)
    (_hS : ∀ s ∈ S, s ∈ st.pairs) :
    get_date12_list (set_keep st S).pairs (set_keep st S).dropMask true =
      st.pairs.filter (fun p => decide (p ∉ S)) ∧
    set_keep (set_keep st S) S = set_keep st S := by
  constructor
  · have hmask : (set_keep st S).dropMask =
        st.pairs.map (fun p => decide (p ∉ S)) := rfl
    have hpairs : (set_keep st S).pairs = st.pairs := rfl
    rw [hpairs, hmask]
    unfold get_date12_list
    rw [if_pos rfl]
    exact zip_map_filter st.pairs (fun p => decide (p ∉ S))
  · rfl

/-- Witness for C7: dropping the third pair of the spec scenario keeps the
first two in order; repeating the update is a no-op. -/
theorem set_keep_filter_idempotent_witness :
    (∀ s ∈ [((10, 34) : DatePair)], s ∈ exPairs) ∧
    (get_date12_list (set_keep ⟨exPairs, [true, true, true]⟩ [(10, 34)]).pairs
        (set_keep ⟨exPairs, [true, true, true]⟩ [(10, 34)]).dropMask true =
      exPairs.filter (fun p => decide (p ∉ [((10, 34) : DatePair)])) ∧
     set_keep (set_keep ⟨exPairs, [true, true, true]⟩ [(10, 34)]) [(10, 34)] =
       set_keep ⟨exPairs, [true, true, true]⟩ [(10, 34)]) :=
  ⟨by unfold exPairs; decide,
   set_keep_filter_idempotent ⟨exPairs, [true, true, true]⟩ [(10, 34)]
     (by unfold exPairs; decide)⟩

/-- Python slice start `min a len` for a nonnegative bound `a` on an axis of
extent `len`. -/
def sliceStart (a len : Nat) : Nat := min a len

/-- Length of the Python slice `a:b` on an axis of extent `len`: bounds are
silently clamped to the extent, never an error. -/
def sliceLen (a b len : Nat) : Nat := min b len - min a len

/-- A spatial bounding box `(x0, y0, x1, y1)`. -/
abbrev Box := Nat × Nat × Nat × Nat

/-- An open `timeseries` handle: the epoch date list, the spatial extents
and the stored cube as a total value function (epoch, row, column). -/
structure TsFile where
  dates : List Nat
  length : Nat
  width : Nat
  data : Nat → Nat → Nat → ℚ

/-- The `dateFlag` boolean selector over the temporal axis built by
`timeseries.read`: a falsy `datasetName` (None or an empty list) selects
every epoch; otherwise position `dateList.index(e)` is set for each
requested epoch `e`. -/
def mk_dateFlag (dates : List Nat) : Option (List Nat) → List Bool
  | none => dates.map (fun _ => true)
  | some [] => dates.map (fun _ => true)
  | some es => (List.range dates.length).map
      (fun i => es.any (fun e => dates.indexOf e == i))

/-- Indices selected by a boolean mask, in order: numpy boolean indexing
along the leading axis. -/
def maskIndices (mask : List Bool) : List Nat :=
  (List.range mask.length).filter (fun i => mask.getD i false)

/-- The sliced (pre-squeeze) result of `timeseries.read`:
`data = ds[dateFlag, box[1]:box[3], box[0]:box[2]]`, with the box
defaulting to `[0, 0, width, length]`, as a rank-3 nested list. -/
def ts_read_raw (ts : TsFile) (sel : Option (List Nat)) (box : Option Box) :
    List (List (List ℚ)) :=
  let b := box.getD (0, 0, ts.width, ts.length)
  let tsel := maskIndices (mk_dateFlag ts.dates sel)
  let rows := List.range' (sliceStart b.2.1 ts.length)
    (sliceLen b.2.1 b.2.2.2 ts.length)
  let cols := List.range' (sliceStart b.1 ts.width)
    (sliceLen b.1 b.2.2.1 ts.width)
  tsel.map (fun t => rows.map (fun r => cols.map (fun c => ts.data t r c)))

/-- The shape (extent of each axis) of the pre-squeeze read result. -/
def ts_read_preshape (ts : TsFile) (sel : Option (List Nat))
    (box : Option Box) : List Nat :=
  let b := box.getD (0, 0, ts.width, ts.length)
  [(mk_dateFlag ts.dates sel).count true,
   sliceLen b.2.1 b.2.2.2 ts.length,
   sliceLen b.1 b.2.2.1 ts.width]

/-- `np.squeeze`: removes every axis of extent 1. -/
def squeeze (shape : List Nat) : List Nat :=
  shape.filter (fun d => decide (d ≠ 1))

/-- The shape of the array returned by `timeseries.read`
(`data = np.squeeze(data)` is applied unconditionally to the result). -/
def ts_read_shape (ts : TsFile) (sel : Option (List Nat))
    (box : Option Box) : List Nat :=
  squeeze (ts_read_preshape ts sel box)

/-- Concrete 2-epoch, 2×3 cube for the read counterexamples: value
`t*100 + r*10 + c` at (epoch `t`, row `r`, column `c`). -/
def exTs : TsFile :=
  ⟨[10, 20], 2, 3, fun t r c => ((t * 100 + r * 10 + c : Nat) : ℚ)⟩

/-- C8 counterexample: the box (0,0,100,100) exceeds the stored extent
(width 3, length 2), yet the read returns the clamped-slice data instead of
failing with any error. -/
theorem read_out_of_bounds_returns_data :
    exTs.width < 100 ∧ exTs.length < 100 ∧
    ts_read_raw exTs none (some (0, 0, 100, 100)) =
      [[[0, 1, 2], [10, 11, 12]], [[100, 101, 102], [110, 111, 112]]] := by
  refine ⟨by decide, by decide, by decide⟩

/-- C8 amended: an omitted bounding box resolves to the full spatial extent
`(0, 0, width, length)`; a box whose coordinates exceed the stored extent is
clamped to the extent by Python slice semantics, and the read returns the
clipped data — identical to the read with the clamped box — rather than
failing. -/
theorem read_box_default_and_clamp (ts : TsFile) (sel : Option (List Nat))
    (x0 y0 x1 y1 : Nat) :
    ts_read_raw ts sel none =
      ts_read_raw ts sel (some (0, 0, ts.width, ts.length)) ∧
    ts_read_raw ts sel (some (x0, y0, x1, y1)) =
      ts_read_raw ts sel (some (min x0 ts.width, min y0 ts.length,
        min x1 ts.width, min y1 ts.length)) := by
  constructor
  · rfl
  · unfold ts_read_raw
    simp [sliceStart, sliceLen, Nat.min_assoc]

/-- C9 counterexample: reading one epoch with the one-row box (0,0,3,1) on
the 2×3 cube has pre-squeeze shape [1, 1, 3]; `np.squeeze` removes the
degenerate spatial row axis along with the leading axis, returning shape
[3] — not [1, 3] as removal of only the leading axis would give. -/
theorem squeeze_removes_spatial_axis :
    ts_read_preshape exTs (some [10]) (some (0, 0, 3, 1)) = [1, 1, 3] ∧
    ts_read_shape exTs (some [10]) (some (0, 0, 3, 1)) = [3] ∧
    ts_read_shape exTs (some [10]) (some (0, 0, 3, 1)) ≠ [1, 3] := by decide

theorem length_filter_ne_add_count (l : List Nat) :
    l.length = (l.filter (fun d => decide (d ≠ 1))).length + l.count 1 := by
  induction l with
  | nil => rfl
  | cons x xs ih =>
    by_cases h : x = 1
    · subst h
      have hf : List.filter (fun d => decide (d ≠ 1)) (1 :: xs) =
          List.filter (fun d => decide (d ≠ 1)) xs := by simp
      have hc : List.count 1 (1 :: xs) = List.count 1 xs + 1 := by
        simp [List.count_cons]
      rw [List.length_cons, hf, hc, ih]
      omega
    · have hf : List.filter (fun d => decide (d ≠ 1)) (x :: xs) =
          x :: List.filter (fun d => decide (d ≠ 1)) xs := by simp [h]
      have hc : List.count 1 (x :: xs) = List.count 1 xs := by
        simp [List.count_cons, h]
      rw [List.length_cons, hf, hc, List.length_cons, ih]
      omega

/-- C9 amended: `np.squeeze` removes every axis of extent exactly 1 — not
only the leading temporal axis: the returned shape is the subsequence of
non-unit extents in order, every removed axis has extent exactly 1, and the
rank drops by exactly the number of unit axes. A spatial box of one row or
one column therefore loses that spatial axis as well. -/
theorem squeeze_removes_all_unit_axes (ts : TsFile) (sel : Option (List Nat))
    (box : Option Box) :
    List.Sublist (ts_read_shape ts sel box) (ts_read_preshape ts sel box) ∧
    (∀ d ∈ ts_read_shape ts sel box, d ≠ 1) ∧
    (ts_read_preshape ts sel box).length =
      (ts_read_shape ts sel box).length + (ts_read_preshape ts sel box).count 1 := by
  refine ⟨List.filter_sublist _, ?_, length_filter_ne_add_count _⟩
  intro d hd
  have := List.of_mem_filter hd
  simpa using this

/-- Number of kept pairs, `np.sum(self.dropIfgram)`. -/
def countTrue (mask : List Bool) : Nat := mask.count true

/-- `ifgramStack.temporal_average` at a fixed pixel, for a dataset without
the unwrapPhase scaling (e.g. the default `coherence`): sums `data[i]` over
the rows selected by `dropIfgramFlag` — all rows when `dropIfgram=False` —
and then divides by `np.sum(self.dropIfgram)`, the kept-pair count. -/
def temporal_average (data : List ℚ) (dropMask : List Bool)
    (dropIfgram : Bool) : ℚ :=
  let flag := if dropIfgram then dropMask else data.map (fun _ => true)
  let total := (((data.zip flag).filter (fun q => q.2)).map (fun q => q.1)).sum
  total / (countTrue dropMask : ℚ)

/-- C10 counterexample: with all-zero data and one dropped pair,
`temporal_average(dropIfgram=False)` equals the arithmetic mean over the
pairs actually summed (both are 0), so the two values do not coincide only
in the no-drop case. -/
theorem temporal_average_coincides_with_zero_sum :
    countTrue [true, false] < ([0, 0] : List ℚ).length ∧
    temporal_average [0, 0] [true, false] false =
      ([0, 0] : List ℚ).sum / (([0, 0] : List ℚ).length : ℚ) := by
  refine ⟨by decide, ?_⟩
  have h1 : temporal_average [0, 0] [true, false] false = 0 := by
    show ((((([0, 0] : List ℚ).zip [true, true]).filter
        (fun q => q.2)).map (fun q => q.1)).sum) / ((countTrue [true, false] : Nat) : ℚ) = 0
    norm_num [countTrue]
  have h2 : ([0, 0] : List ℚ).sum / (([0, 0] : List ℚ).length : ℚ) = 0 := by
    norm_num
  rw [h1, h2]

/-- C10 amended: `temporal_average(dropIfgram=False)` sums the contributions
of all pairs but divides by the kept-pair count, so it returns
(total sum) / (kept count); whenever at least one pair is kept, at least one
is dropped, and the total sum is nonzero, this differs from the arithmetic
mean over the pairs actually summed (they coincide when the sum is zero or
nothing is dropped). -/
theorem temporal_average_kept_divisor (data : List ℚ) (dropMask : List Bool)
    (hk0 : 0 < countTrue dropMask) (hdrop : countTrue dropMask < data.length)
    (hsum : data.sum ≠ 0) :
    temporal_average data dropMask false = data.sum / (countTrue dropMask : ℚ) ∧
    temporal_average data dropMask false ≠ data.sum / (data.length : ℚ) := by
  have htot : temporal_average data dropMask false =
      data.sum / (countTrue dropMask : ℚ) := by
    show (((data.zip (data.map (fun _ => true))).filter
        (fun q => q.2)).map (fun q => q.1)).sum / ((countTrue dropMask : Nat) : ℚ) =
      data.sum / ((countTrue dropMask : Nat) : ℚ)
    rw [zip_map_filter data (fun _ => true), List.filter_true]
  refine ⟨htot, ?_⟩
  rw [htot]
  intro heq
  have hkQ : ((countTrue dropMask : Nat) : ℚ) ≠ 0 := by
    exact_mod_cast Nat.pos_iff_ne_zero.1 hk0
  have hmQ : ((data.length : Nat) : ℚ) ≠ 0 := by
    have : 0 < data.length := lt_trans hk0 hdrop
    exact_mod_cast Nat.pos_iff_ne_zero.1 this
  rw [div_eq_div_iff hkQ hmQ] at heq
  have hcast : ((data.length : Nat) : ℚ) = ((countTrue dropMask : Nat) : ℚ) :=
    mul_left_cancel₀ hsum heq
  have : data.length = countTrue dropMask := Nat.cast_injective hcast
  omega

/-- Witness for the amended C10: data [1,2] with the second pair dropped —
the function returns 3/1 = 3, not the mean 3/2. -/
theorem temporal_average_kept_divisor_witness :
    0 < countTrue [true, false] ∧
    countTrue [true, false] < ([1, 2] : List ℚ).length ∧
    ([1, 2] : List ℚ).sum ≠ 0 ∧
    (temporal_average [1, 2] [true, false] false =
        ([1, 2] : List ℚ).sum / (countTrue [true, false] : ℚ) ∧
      temporal_average [1, 2] [true, false] false ≠
        ([1, 2] : List ℚ).sum / (([1, 2] : List ℚ).length : ℚ)) :=
  ⟨by decide, by decide, by norm_num,
   temporal_average_kept_divisor [1, 2] [true, false]
     (by decide) (by decide) (by norm_num)⟩

example : dateList [(1, 2), (2, 3), (1, 3)] = [1, 2, 3] := by decide
example : tbase [(10, 22), (22, 34), (10, 34)] = [0, 12, 24] := by decide
example : A_matrix [(1, 2), (2, 3), (1, 3)] =
    [[-1, 1, 0], [0, -1, 1], [-1, 0, 1]] := by decide
example : B_matrix [(10, 22), (22, 34), (10, 34)] =
    [[12, 0, 0], [0, 12, 0], [12, 12, 0]] := by decide
example : get_design_matrix [(10, 22), (22, 34), (10, 34)] none =
    ([[1, 0], [-1, 1], [0, 1]], [[12, 0], [0, 12], [12, 12]]) := by decide

end Pysar
